import Mathlib

/-!
Shallow embedding of the `event-bus` repository's core broker
(`src/src/EventBus/EventBus.cpp`, `src/include/EventBus/EventBus.h`) and of
`Util::RandomNumberGenerator` (`src/include/Util/RandomNumberGenerator.h`).

The broker's shared state (`handlers_`, `event_queue_`, `running_`,
`stop_requested_`, `worker_thread_`) is protected by the single mutex
`mutex_`; every access in the C++ happens inside one of a handful of
lock-guarded regions.  We therefore model executions as interleavings of
atomic actions, one per lock region (the standard interleaving semantics of
mutex-protected code):

  * `Action.subscribe h`  — `EventBus::subscribe` (EventBus.cpp:11-15):
    appends the handler to `handlers_`.
  * `Action.publish e`    — `EventBus::publish` (EventBus.cpp:24-32):
    appends the event to the tail of `event_queue_`, unconditionally.
  * `Action.start`        — `EventBus::start` (EventBus.cpp:40-51): no-op
    when `running_`, otherwise clears `stop_requested_`, sets `running_`
    and spawns the worker.
  * `Action.stopSignal`   — the first lock region of `EventBus::stop`
    (EventBus.cpp:62-69): no-op when not running, otherwise sets
    `stop_requested_`.
  * `Action.deliver`      — one iteration of `EventBus::dispatchLoop`
    (EventBus.cpp:106-117): pops the queue head, snapshots `handlers_`
    (`handlers_copy = handlers_`), and invokes each handler of the snapshot
    in order on the popped event.  The ghost field `delivered` records the
    popped event together with that snapshot, which is exactly the ordered
    sequence of handler invocations performed for the event.
  * `Action.workerExit`   — the loop-exit check (EventBus.cpp:102-104):
    the worker returns iff `stop_requested_` holds and the queue is empty.

Ghost fields (`delivered`, `pubs`, `spawns`, `joins`) record observable
history and do not influence any branch.  Events and handlers are
identified by `Nat` ids: the broker treats both as opaque values, so only
their identity and order matter.
-/

namespace EventBusModel

/-- Atomic actions of the broker, one per mutex-protected region of
`EventBus.cpp` (plus the worker's loop-exit check). -/
inductive Action where
  | subscribe (h : Nat)
  | publish (e : Nat)
  | start
  | stopSignal
  | deliver
  | workerExit
deriving DecidableEq, Repr

/-- State of one `EventBus` instance.  Fields `handlers_`, `event_queue_`,
`running_`, `stop_requested_` mirror the members declared in
`EventBus.h:113-120`.  `workerActive` is true while the thread spawned into
`worker_thread_` has not yet returned from `dispatchLoop`; `joinable`
mirrors `worker_thread_.joinable()`.  `delivered` (event, handler snapshot,
in delivery order), `pubs` (all published events in enqueue order),
`spawns` and `joins` (counts of thread constructions and joins) are ghost
observables. -/
@[ext]
structure BusState where
  handlers_ : List Nat
  event_queue_ : List Nat
  running_ : Bool
  stop_requested_ : Bool
  workerActive : Bool
  joinable : Bool
  delivered : List (Nat × List Nat)
  pubs : List Nat
  spawns : Nat
  joins : Nat
deriving DecidableEq, Repr

/-- Freshly constructed bus: default member initializers of `EventBus.h`
(`running_{false}`, `stop_requested_{false}`, empty containers, no
thread). -/
def init : BusState :=
  { handlers_ := [], event_queue_ := [], running_ := false,
    stop_requested_ := false, workerActive := false, joinable := false,
    delivered := [], pubs := [], spawns := 0, joins := 0 }

/-- Effect of one atomic action, translated region by region from
`EventBus.cpp` (see the file comment for the correspondence). -/
def stepA (s : BusState) : Action → BusState
  | .subscribe h => { s with handlers_ := s.handlers_ ++ [h] }
  | .publish e =>
      { s with event_queue_ := s.event_queue_ ++ [e], pubs := s.pubs ++ [e] }
  | .start =>
      if s.running_ then s
      else
        { s with stop_requested_ := false, running_ := true,
                 workerActive := true, joinable := true,
                 spawns := s.spawns + 1 }
  | .stopSignal =>
      if s.running_ then { s with stop_requested_ := true } else s
  | .deliver =>
      match s.event_queue_ with
      | [] => s
      | e :: rest =>
          { s with event_queue_ := rest,
                   delivered := s.delivered ++ [(e, s.handlers_)] }
  | .workerExit =>
      if s.stop_requested_ ∧ s.event_queue_ = [] then
        { s with workerActive := false }
      else s

/-- Run of the broker: fold a sequence of atomic actions from the freshly
constructed state.  Every mutex-serialized execution of the C++ is such a
sequence. -/
def run (as : List Action) : BusState :=
  as.foldl stepA init

/-- Iterate `n` dispatch-loop deliveries (`Action.deliver`). -/
def deliverN : Nat → BusState → BusState
  | 0, s => s
  | n + 1, s => deliverN n (stepA s .deliver)

/-- Behaviour of `dispatchLoop` once `stop_requested_` is set and no other
thread intervenes: deliver every queued event in FIFO order, then take the
loop-exit branch (EventBus.cpp:102-104). -/
def drainLoop (s : BusState) : BusState :=
  stepA (deliverN s.event_queue_.length s) .workerExit

/-- `EventBus::start` as a single call (one lock region). -/
def startFn (s : BusState) : BusState :=
  stepA s .start

/-- `EventBus::stop` (EventBus.cpp:59-78) as observed by its caller when no
other thread acts during the join: early-return when not running; otherwise
set `stop_requested_`, block in `worker_thread_.join()` while the worker
drains the queue and exits, then clear `running_`. -/
def stopFn (s : BusState) : BusState :=
  if s.running_ then
    let s1 := drainLoop { s with stop_requested_ := true }
    let s2 :=
      if s1.joinable then
        { s1 with joinable := false, joins := s1.joins + 1 }
      else s1
    { s2 with running_ := false }
  else s

/-- Public operations of the broker, each as one complete call, together
with the two worker-thread steps that can interleave between calls
(`workerTick` = one loop iteration, `exitTick` = the loop-exit check). -/
inductive ApiOp where
  | subscribe (h : Nat)
  | publish (e : Nat)
  | start
  | stop
  | workerTick
  | exitTick
deriving DecidableEq, Repr

/-- Semantics of one public operation or worker step. -/
def apiStep (s : BusState) : ApiOp → BusState
  | .subscribe h => stepA s (.subscribe h)
  | .publish e => stepA s (.publish e)
  | .start => startFn s
  | .stop => stopFn s
  | .workerTick => stepA s .deliver
  | .exitTick => stepA s .workerExit

/-- Broker state after a sequence of complete public operations and worker
steps, from construction. -/
def apiRun (ops : List ApiOp) : BusState :=
  ops.foldl apiStep init

/-- Lifecycle invariant: the worker thread is alive exactly when the state
is Running, and while Running no stop has been requested. -/
def lifecycleInv (s : BusState) : Prop :=
  s.workerActive = s.running_ ∧
  (s.running_ = true → s.stop_requested_ = false)

/-!
Fine-grained model of two threads racing through `EventBus::stop`
(EventBus.cpp:59-78).  Only the two lock-guarded regions are atomic; the
`worker_thread_.joinable()` read (line 71) and the `worker_thread_.join()`
call (line 72) happen outside the mutex, so steps of the two callers may
interleave freely around them.  Program counter of one caller:

  0 — about to run the first lock region (lines 62-69): early-return when
      `running_` is false, else set `stop_requested_`;
  1 — about to read `worker_thread_.joinable()` (line 71);
  2 — about to call `worker_thread_.join()` if the read returned true
      (line 72);
  3 — about to run the second lock region `running_ = false` (lines 74-77);
  4 — returned.

`joins` counts executed `join()` calls on `worker_thread_`. -/

/-- Shared bus fields touched by `EventBus::stop`. -/
structure StopShared where
  running_ : Bool
  stop_requested_ : Bool
  joinable : Bool
  joins : Nat
deriving DecidableEq, Repr

/-- Local state of one thread executing `EventBus::stop`. -/
structure StopCaller where
  pc : Nat
  sawJoinable : Bool
deriving DecidableEq, Repr

/-- One atomic step of a single `stop` caller (see the numbering above). -/
def stopCallerStep (sh : StopShared) (c : StopCaller) :
    StopShared × StopCaller :=
  match c.pc with
  | 0 =>
      if sh.running_ then
        ({ sh with stop_requested_ := true }, { c with pc := 1 })
      else (sh, { c with pc := 4 })
  | 1 => (sh, { c with sawJoinable := sh.joinable, pc := 2 })
  | 2 =>
      if c.sawJoinable then
        ({ sh with joinable := false, joins := sh.joins + 1 },
         { c with pc := 3 })
      else (sh, { c with pc := 3 })
  | 3 => ({ sh with running_ := false }, { c with pc := 4 })
  | _ => (sh, c)

/-- Two threads, A and B, each executing one call of `EventBus::stop`. -/
structure StopRace where
  shared : StopShared
  a : StopCaller
  b : StopCaller
deriving DecidableEq, Repr

/-- Scheduler step: advance caller A when the flag is true, else B. -/
def raceStep (s : StopRace) (isA : Bool) : StopRace :=
  if isA then
    let p := stopCallerStep s.shared s.a
    { s with shared := p.1, a := p.2 }
  else
    let p := stopCallerStep s.shared s.b
    { s with shared := p.1, b := p.2 }

/-- Starting point of the race: a Running broker whose worker thread was
spawned by `start` (so `worker_thread_` is joinable), with both callers
about to enter `stop`. -/
def raceInit : StopRace :=
  { shared := { running_ := true, stop_requested_ := false,
                joinable := true, joins := 0 },
    a := { pc := 0, sawJoinable := false },
    b := { pc := 0, sawJoinable := false } }

/-- Interleaved execution of the two `stop` callers under a schedule. -/
def raceRun (sched : List Bool) : StopRace :=
  sched.foldl raceStep raceInit

end EventBusModel

namespace Util

/-- One step of the XorShift32 engine
(`RandomNumberGenerator::xorshift32`, RandomNumberGenerator.h:117-124):
three shift-xor rounds on the 32-bit state, left shifts wrapping modulo
2^32 as the C++ `uint32_t` arithmetic does. -/
def xorshift32 (seed : Nat) : Nat :=
  let s1 := seed ^^^ ((seed <<< 13) % 2 ^ 32)
  let s2 := s1 ^^^ (s1 >>> 17)
  s2 ^^^ ((s2 <<< 5) % 2 ^ 32)

/-- Uniform draw in [0, n)
(`RandomNumberGenerator::uniform_dist`, RandomNumberGenerator.h:52-66):
returns 0 when n ≤ 0 (the release-build path after the disabled assert);
masks with n-1 when `(n & (n-1)) == 0`; otherwise takes the high 32 bits of
the 64-bit product of the generator output and n. -/
def uniform_dist (seed : Nat) (n : Int) : Nat :=
  if n ≤ 0 then 0
  else if n.toNat &&& (n.toNat - 1) = 0 then
    xorshift32 seed &&& (n.toNat - 1)
  else (xorshift32 seed * n.toNat) >>> 32

end Util

namespace EventBusModel

/-- Delivering with a non-empty queue pops the head and records it with the
snapshot of the registry; the other fields are untouched. -/
lemma stepA_deliver_cons (s : BusState) (e : Nat) (rest : List Nat)
    (hq : s.event_queue_ = e :: rest) :
    stepA s .deliver =
      { s with event_queue_ := rest,
               delivered := s.delivered ++ [(e, s.handlers_)] } := by
  simp [stepA, hq]

/-- Running `deliverN` for the full length of the queue empties it and
appends every queued event, in FIFO order, each paired with the current
handler registry, to the delivery record.  Nothing else changes. -/
lemma deliverN_drain :
    ∀ (q : List Nat) (s : BusState), s.event_queue_ = q →
      deliverN q.length s =
        { s with event_queue_ := [],
                 delivered :=
                   s.delivered ++ q.map (fun e => (e, s.handlers_)) } := by
  intro q
  induction q with
  | nil =>
      intro s hq
      cases s
      simp_all [deliverN]
  | cons e rest ih =>
      intro s hq
      have h1 : stepA s .deliver =
          { s with event_queue_ := rest,
                   delivered := s.delivered ++ [(e, s.handlers_)] } :=
        stepA_deliver_cons s e rest hq
      have h2 := ih { s with event_queue_ := rest,
                             delivered := s.delivered ++ [(e, s.handlers_)] }
        rfl
      calc deliverN (rest.length + 1) s
          = deliverN rest.length (stepA s .deliver) := rfl
        _ = _ := by rw [h1, h2]; simp

/-- FIFO invariant on a single step: the delivered events followed by the
still-pending queue always equal the full publish history, in order. -/
lemma fifo_inv_step (s : BusState) (a : Action)
    (h : s.delivered.map Prod.fst ++ s.event_queue_ = s.pubs) :
    (stepA s a).delivered.map Prod.fst ++ (stepA s a).event_queue_ =
      (stepA s a).pubs := by
  cases a with
  | subscribe hh => simpa [stepA] using h
  | publish e => simp [stepA, ← h]
  | start =>
      by_cases hr : s.running_ <;> simp [stepA, hr, h]
  | stopSignal =>
      by_cases hr : s.running_ <;> simp [stepA, hr, h]
  | deliver =>
      cases hq : s.event_queue_ with
      | nil => simpa [stepA, hq] using h
      | cons e rest =>
          rw [hq] at h
          simp [stepA, hq, ← h]
  | workerExit =>
      by_cases hc : s.stop_requested_ ∧ s.event_queue_ = []
      · rw [hc.2] at h; simpa [stepA, hc, hc.2] using h
      · simp [stepA, hc, h]

/-- FIFO invariant along any action sequence. -/
lemma fifo_inv_fold :
    ∀ (as : List Action) (s : BusState),
      s.delivered.map Prod.fst ++ s.event_queue_ = s.pubs →
      (as.foldl stepA s).delivered.map Prod.fst ++
          (as.foldl stepA s).event_queue_ =
        (as.foldl stepA s).pubs := by
  intro as
  induction as with
  | nil => intro s h; simpa using h
  | cons a rest ih =>
      intro s h
      exact ih (stepA s a) (fifo_inv_step s a h)

/-- Handler registry only grows: one step keeps the old registry as a
prefix. -/
lemma handlers_mono_step (s : BusState) (a : Action) :
    s.handlers_ <+: (stepA s a).handlers_ := by
  cases a with
  | subscribe hh => exact ⟨[hh], rfl⟩
  | publish e => simp [stepA]
  | start => by_cases hr : s.running_ <;> simp [stepA, hr]
  | stopSignal => by_cases hr : s.running_ <;> simp [stepA, hr]
  | deliver =>
      cases hq : s.event_queue_ with
      | nil => simp [stepA, hq]
      | cons e rest => simp [stepA, hq]
  | workerExit =>
      by_cases hc : s.stop_requested_ ∧ s.event_queue_ = [] <;>
        simp [stepA, hc]

/-- Snapshot invariant on a single step: every recorded snapshot stays a
prefix of the (only growing) registry. -/
lemma snapshot_inv_step (s : BusState) (a : Action)
    (h : ∀ p ∈ s.delivered, p.2 <+: s.handlers_) :
    ∀ p ∈ (stepA s a).delivered, p.2 <+: (stepA s a).handlers_ := by
  intro p hp
  have hmono := handlers_mono_step s a
  cases a with
  | subscribe hh =>
      have hp' : p ∈ s.delivered := by simpa [stepA] using hp
      exact (h p hp').trans hmono
  | publish e =>
      have hp' : p ∈ s.delivered := by simpa [stepA] using hp
      exact (h p hp').trans hmono
  | start =>
      by_cases hr : s.running_ <;>
        [ (exact (h p (by simpa [stepA, hr] using hp)).trans hmono);
          (exact (h p (by simpa [stepA, hr] using hp)).trans hmono) ]
  | stopSignal =>
      by_cases hr : s.running_ <;>
        [ (exact (h p (by simpa [stepA, hr] using hp)).trans hmono);
          (exact (h p (by simpa [stepA, hr] using hp)).trans hmono) ]
  | deliver =>
      cases hq : s.event_queue_ with
      | nil => exact (h p (by simpa [stepA, hq] using hp)).trans hmono
      | cons e rest =>
          have hp' : p ∈ s.delivered ++ [(e, s.handlers_)] := by
            simpa [stepA, hq] using hp
          rcases List.mem_append.mp hp' with hold | hnew
          · have := h p hold
            simpa [stepA, hq] using this
          · have hpe : p = (e, s.handlers_) := by simpa using hnew
            subst hpe
            simp [stepA, hq]
  | workerExit =>
      by_cases hc : s.stop_requested_ ∧ s.event_queue_ = [] <;>
        [ (exact (h p (by simpa [stepA, hc] using hp)).trans hmono);
          (exact (h p (by simpa [stepA, hc] using hp)).trans hmono) ]

/-- Snapshot invariant along any action sequence. -/
lemma snapshot_inv_fold :
    ∀ (as : List Action) (s : BusState),
      (∀ p ∈ s.delivered, p.2 <+: s.handlers_) →
      ∀ p ∈ (as.foldl stepA s).delivered,
        p.2 <+: (as.foldl stepA s).handlers_ := by
  intro as
  induction as with
  | nil => intro s h; simpa using h
  | cons a rest ih =>
      intro s h
      exact ih (stepA s a) (snapshot_inv_step s a h)

/-- Field-level description of `stopFn` on a running bus: the queue is fully
drained in FIFO order into the delivery record (each event paired with the
registry at its dequeue), the worker has exited, and `running_` is cleared. -/
lemma drainLoop_stopped (s : BusState) (hsr : s.stop_requested_ = true) :
    drainLoop s =
      { s with event_queue_ := [],
               delivered :=
                 s.delivered ++ s.event_queue_.map (fun e => (e, s.handlers_)),
               workerActive := false } := by
  have hd := deliverN_drain s.event_queue_ s rfl
  unfold drainLoop
  rw [hd]
  simp [stepA, hsr]

lemma stopFn_fields (s : BusState) (hr : s.running_ = true) :
    (stopFn s).event_queue_ = [] ∧
    (stopFn s).delivered =
      s.delivered ++ s.event_queue_.map (fun e => (e, s.handlers_)) ∧
    (stopFn s).running_ = false ∧
    (stopFn s).workerActive = false ∧
    (stopFn s).stop_requested_ = true ∧
    (stopFn s).handlers_ = s.handlers_ ∧
    (stopFn s).spawns = s.spawns := by
  unfold stopFn
  rw [if_pos hr, drainLoop_stopped { s with stop_requested_ := true } rfl]
  cases hj : s.joinable <;> simp [hj]

/-- The lifecycle invariant is preserved by every public operation and
worker step. -/
lemma lifecycleInv_step (s : BusState) (op : ApiOp)
    (h : lifecycleInv s) : lifecycleInv (apiStep s op) := by
  obtain ⟨h1, h2⟩ := h
  cases op with
  | subscribe hh => exact ⟨by simpa [apiStep, stepA] using h1,
      by simpa [apiStep, stepA] using h2⟩
  | publish e => exact ⟨by simpa [apiStep, stepA] using h1,
      by simpa [apiStep, stepA] using h2⟩
  | start =>
      cases hr : s.running_ <;>
        simp_all [apiStep, startFn, stepA, lifecycleInv]
  | stop =>
      cases hr : s.running_ with
      | false => simp_all [apiStep, stopFn, lifecycleInv]
      | true =>
          have hf := stopFn_fields s hr
          exact ⟨by rw [apiStep, hf.2.2.2.1, hf.2.2.1],
            by rw [apiStep]; intro hc; rw [hf.2.2.1] at hc; cases hc⟩
  | workerTick =>
      cases hq : s.event_queue_ <;>
        simp_all [apiStep, stepA, lifecycleInv]
  | exitTick =>
      by_cases hc : s.stop_requested_ ∧ s.event_queue_ = []
      · cases hr : s.running_ with
        | false =>
            refine ⟨?_, by simp [apiStep, stepA, hc, hr]⟩
            rw [hr] at h1
            simp [apiStep, stepA, hc, hr]
        | true => exact absurd (h2 hr) (by simp [hc.1])
      · simpa [apiStep, stepA, hc] using ⟨h1, h2⟩

/-- The lifecycle invariant holds in every reachable state. -/
lemma lifecycleInv_fold :
    ∀ (ops : List ApiOp) (s : BusState), lifecycleInv s →
      lifecycleInv (ops.foldl apiStep s) := by
  intro ops
  induction ops with
  | nil => intro s h; simpa using h
  | cons op rest ih =>
      intro s h
      exact ih (apiStep s op) (lifecycleInv_step s op h)

/-- The `running_` flag changes only through `start` (false to true) and
`stop` (true to false); every other operation leaves it unchanged. -/
lemma running_transition (s : BusState) (op : ApiOp) :
    (apiStep s op).running_ = s.running_ ∨
    (op = ApiOp.start ∧ s.running_ = false ∧
      (apiStep s op).running_ = true) ∨
    (op = ApiOp.stop ∧ s.running_ = true ∧
      (apiStep s op).running_ = false) := by
  cases op with
  | subscribe hh => left; simp [apiStep, stepA]
  | publish e => left; simp [apiStep, stepA]
  | start =>
      cases hr : s.running_ with
      | false => right; left; exact ⟨rfl, rfl, by simp [apiStep, startFn, stepA, hr]⟩
      | true => left; simp [apiStep, startFn, stepA, hr]
  | stop =>
      cases hr : s.running_ with
      | false => left; simp [apiStep, stopFn, hr]
      | true => right; right; exact ⟨rfl, rfl, (stopFn_fields s hr).2.2.1⟩
  | workerTick =>
      left
      cases hq : s.event_queue_ <;> simp [apiStep, stepA, hq]
  | exitTick =>
      left
      by_cases hc : s.stop_requested_ ∧ s.event_queue_ = [] <;>
        simp [apiStep, stepA, hc]

end EventBusModel

namespace Util

/-- The XorShift32 state stays a 32-bit value. -/
lemma xorshift32_lt (seed : Nat) (hs : seed < 2 ^ 32) :
    xorshift32 seed < 2 ^ 32 := by
  unfold xorshift32
  have h1 : seed ^^^ ((seed <<< 13) % 2 ^ 32) < 2 ^ 32 :=
    Nat.xor_lt_two_pow hs (Nat.mod_lt _ (by norm_num))
  have h2 : (seed ^^^ ((seed <<< 13) % 2 ^ 32)) >>> 17 < 2 ^ 32 := by
    rw [Nat.shiftRight_eq_div_pow]
    exact Nat.lt_of_le_of_lt (Nat.div_le_self _ _) h1
  have h3 : (seed ^^^ ((seed <<< 13) % 2 ^ 32)) ^^^
      ((seed ^^^ ((seed <<< 13) % 2 ^ 32)) >>> 17) < 2 ^ 32 :=
    Nat.xor_lt_two_pow h1 h2
  exact Nat.xor_lt_two_pow h3 (Nat.mod_lt _ (by norm_num))

end Util

namespace EventBusModel

/-- C1: along every interleaved execution of the broker, the events already
delivered by the dispatch loop, in delivery order, followed by the events
still pending in the queue, equal the full sequence of published events in
the order their enqueues completed; in particular the delivery sequence is
always a prefix of the enqueue sequence (FIFO: head popped first, tail
appended last). -/
theorem fifo_delivery (as : List Action) :
    (run as).delivered.map Prod.fst ++ (run as).event_queue_ =
      (run as).pubs ∧
    (run as).delivered.map Prod.fst <+: (run as).pubs := by
  have h : (run as).delivered.map Prod.fst ++ (run as).event_queue_ =
      (run as).pubs := fifo_inv_fold as init rfl
  exact ⟨h, ⟨(run as).event_queue_, h⟩⟩

/-- C2: dispatching one event pops the queue head and records exactly the
snapshot of the registry taken at dequeue time as the ordered sequence of
handler invocations for that event; when the registered handlers are
pairwise distinct, each handler registered before the dequeue occurs
exactly once in that sequence, and the sequence is the registry in
subscription order. -/
theorem per_event_handler_invocation (s : BusState) (e : Nat)
    (rest : List Nat) (hq : s.event_queue_ = e :: rest)
    (hd : s.handlers_.Nodup) :
    (stepA s .deliver).delivered = s.delivered ++ [(e, s.handlers_)] ∧
    (stepA s .deliver).event_queue_ = rest ∧
    ∀ h ∈ s.handlers_, s.handlers_.count h = 1 := by
  refine ⟨by simp [stepA, hq], by simp [stepA, hq], ?_⟩
  intro h hh
  exact List.count_eq_one_of_mem hd hh

/-- Witness for C2: on a bus with handlers [0, 1] and queue [7], one
dispatch iteration delivers event 7 to the snapshot [0, 1]. -/
theorem per_event_handler_invocation_witness :
    (stepA { init with handlers_ := [0, 1], event_queue_ := [7] }
        .deliver).delivered = [(7, [0, 1])] := by
  have h := per_event_handler_invocation
    { init with handlers_ := [0, 1], event_queue_ := [7] } 7 [] rfl
    (by decide)
  simpa [init] using h.1

/-- C3: on a Running broker, `stop()` returns only after every event that
was in the queue has been delivered (each to the handlers registered at its
dequeue), leaving an empty queue, a terminated worker and a Stopped state;
moreover the dispatch loop's exit step fires exactly when stop has been
requested and the queue is empty. -/
theorem drain_on_stop (s : BusState) (hr : s.running_ = true) :
    (stopFn s).event_queue_ = [] ∧
    (stopFn s).delivered =
      s.delivered ++ s.event_queue_.map (fun e => (e, s.handlers_)) ∧
    (stopFn s).running_ = false ∧
    (stopFn s).workerActive = false ∧
    (∀ t : BusState, t.workerActive = true →
      ((stepA t .workerExit).workerActive = false ↔
        (t.stop_requested_ = true ∧ t.event_queue_ = []))) := by
  have hf := stopFn_fields s hr
  refine ⟨hf.1, hf.2.1, hf.2.2.1, hf.2.2.2.1, ?_⟩
  intro t ht
  constructor
  · intro hx
    by_cases hc : t.stop_requested_ = true ∧ t.event_queue_ = []
    · exact hc
    · simp [stepA, hc, ht] at hx
  · intro hc
    simp [stepA, hc]

/-- Witness for C3: stopping a running bus with handlers [5] and pending
events [1, 2] delivers both events to handler 5, in order, and empties the
queue. -/
theorem drain_on_stop_witness :
    (stopFn { init with
                running_ := true, workerActive := true,
                joinable := true, handlers_ := [5],
                event_queue_ := [1, 2] }).delivered = [(1, [5]), (2, [5])] ∧
    (stopFn { init with
                running_ := true, workerActive := true,
                joinable := true, handlers_ := [5],
                event_queue_ := [1, 2] }).event_queue_ = [] := by
  have h := drain_on_stop
    { init with
        running_ := true, workerActive := true, joinable := true,
        handlers_ := [5], event_queue_ := [1, 2] } rfl
  exact ⟨by simpa [init] using h.2.1, h.1⟩

/-- C4: in every reachable state, the snapshot recorded with a delivered
event is a prefix of the current registry, so (when registrations are
pairwise distinct) any handler subscribed after that event was dequeued —
i.e. sitting in the registry beyond the snapshot's length — is not in the
snapshot and was never invoked with that event. -/
theorem snapshot_isolation (as : List Action) (p : Nat × List Nat)
    (hp : p ∈ (run as).delivered) :
    p.2 <+: (run as).handlers_ ∧
    ((run as).handlers_.Nodup →
      ∀ h ∈ (run as).handlers_.drop p.2.length, h ∉ p.2) := by
  have hpre : p.2 <+: (run as).handlers_ :=
    snapshot_inv_fold as init (by simp [init]) p hp
  refine ⟨hpre, ?_⟩
  intro hnd h hh
  obtain ⟨t, ht⟩ := hpre
  have hdrop : (run as).handlers_.drop p.2.length = t := by
    rw [← ht, List.drop_left]
  rw [← ht] at hnd
  rw [hdrop] at hh
  exact List.disjoint_left.mp (List.disjoint_of_nodup_append hnd).symm hh

/-- Witness for C4: after subscribing handler 0, publishing event 5,
starting, delivering, and then subscribing handler 1, the recorded snapshot
for event 5 is [0], a prefix of the final registry [0, 1]; handler 1 did
not receive the event. -/
theorem snapshot_isolation_witness :
    ((5, [0]) : Nat × List Nat).2 <+:
      (run [Action.subscribe 0, Action.publish 5, Action.start,
            Action.deliver, Action.subscribe 1]).handlers_ :=
  (snapshot_isolation
    [Action.subscribe 0, Action.publish 5, Action.start,
     Action.deliver, Action.subscribe 1] (5, [0]) (by decide)).1

/-- C5: `publish` appends to the queue in every broker state (no check of
the lifecycle flag); along every execution nothing that passed enqueue is
lost (delivered events plus pending queue always equal the publish
history); and an event published while Stopped is delivered, to the
handlers snapshotted at its dequeue, once `start()` runs and the loop
processes the queue. -/
theorem publish_unconditional_no_loss (s : BusState) (e : Nat) :
    (stepA s (.publish e)).event_queue_ = s.event_queue_ ++ [e] ∧
    (∀ as : List Action,
      (run as).delivered.map Prod.fst ++ (run as).event_queue_ =
        (run as).pubs) ∧
    (s.running_ = false →
      (deliverN (startFn (stepA s (.publish e))).event_queue_.length
          (startFn (stepA s (.publish e)))).event_queue_ = [] ∧
      (deliverN (startFn (stepA s (.publish e))).event_queue_.length
          (startFn (stepA s (.publish e)))).delivered =
        s.delivered ++
          (s.event_queue_ ++ [e]).map (fun x => (x, s.handlers_))) := by
  refine ⟨by simp [stepA], fun as => fifo_inv_fold as init rfl, ?_⟩
  intro hr
  have h1 : startFn (stepA s (.publish e)) =
      { s with event_queue_ := s.event_queue_ ++ [e],
               pubs := s.pubs ++ [e], stop_requested_ := false,
               running_ := true, workerActive := true, joinable := true,
               spawns := s.spawns + 1 } := by
    simp [startFn, stepA, hr]
  rw [h1, deliverN_drain _ _ rfl]
  exact ⟨by simp, by simp⟩

/-- Witness for C5: publishing event 3 on a stopped bus that already holds
event 9 and handler 4, then starting and draining, delivers [9, 3] in
order to handler 4. -/
theorem publish_unconditional_no_loss_witness :
    (deliverN
        (startFn (stepA { init with handlers_ := [4], event_queue_ := [9] }
          (Action.publish 3))).event_queue_.length
        (startFn (stepA { init with handlers_ := [4], event_queue_ := [9] }
          (Action.publish 3)))).delivered = [(9, [4]), (3, [4])] := by
  have h := publish_unconditional_no_loss
    { init with handlers_ := [4], event_queue_ := [9] } 3
  simpa [init] using (h.2.2 rfl).2

/-- C6: `start()` on a Running broker is a no-op that changes nothing and
spawns nothing; `start()` twice from Stopped spawns exactly one worker and
the second call changes nothing; `stop()` on a Stopped broker — including
one never started — returns immediately as a no-op. -/
theorem lifecycle_idempotence (s : BusState) :
    (s.running_ = true → startFn s = s) ∧
    (s.running_ = false →
      startFn (startFn s) = startFn s ∧
      (startFn (startFn s)).spawns = s.spawns + 1) ∧
    (s.running_ = false → stopFn s = s) := by
  refine ⟨fun hr => by simp [startFn, stepA, hr],
    fun hr => ⟨by simp [startFn, stepA, hr], by simp [startFn, stepA, hr]⟩,
    fun hr => by simp [stopFn, hr]⟩

/-- Witness for C6: concrete no-op and single-spawn facts on the fresh
bus. -/
theorem lifecycle_idempotence_witness :
    startFn { init with running_ := true } = { init with running_ := true } ∧
    stopFn init = init ∧
    (startFn (startFn init)).spawns = 1 := by
  refine ⟨(lifecycle_idempotence { init with running_ := true }).1 rfl,
    (lifecycle_idempotence init).2.2 rfl, ?_⟩
  have h := (lifecycle_idempotence init).2.1
  simpa [init] using (h rfl).2

/-- C7: `publish` is a total operation on every broker state: it appends
the event at the queue tail, changes nothing else, and returns normally —
there is no failure branch and no state in which it is rejected. -/
theorem publish_total_append (s : BusState) (e : Nat) :
    stepA s (.publish e) =
      { s with event_queue_ := s.event_queue_ ++ [e],
               pubs := s.pubs ++ [e] } := rfl

/-- C8: in every state reachable by complete public calls and worker
steps, the dispatch worker is alive exactly when the lifecycle state is
Running, and the only transitions of the flag are Stopped-to-Running by
`start` and Running-to-Stopped by `stop`; no operation produces any other
transition. -/
theorem lifecycle_state_machine (ops : List ApiOp) (op : ApiOp) :
    (apiRun ops).workerActive = (apiRun ops).running_ ∧
    ((apiStep (apiRun ops) op).running_ = (apiRun ops).running_ ∨
      (op = ApiOp.start ∧ (apiRun ops).running_ = false ∧
        (apiStep (apiRun ops) op).running_ = true) ∨
      (op = ApiOp.stop ∧ (apiRun ops).running_ = true ∧
        (apiStep (apiRun ops) op).running_ = false)) := by
  have hinv : lifecycleInv (apiRun ops) :=
    lifecycleInv_fold ops init ⟨rfl, by simp [init]⟩
  exact ⟨hinv.1, running_transition (apiRun ops) op⟩

/-- C9: two threads calling `stop()` concurrently on a Running broker can
both pass the `running_` check (the flag is cleared only after the join)
and both observe `worker_thread_.joinable()` as true before either joins,
so both execute `worker_thread_.join()`: under the interleaving
A-lock, B-lock, A-joinable, B-joinable, A-join, B-join the worker is
joined twice, not exactly once. -/
theorem concurrent_stop_double_join :
    (raceRun [true, false, true, false, true, false]).shared.joins = 2 ∧
    (raceRun [true, false, true, false, true, false]).a.pc = 3 ∧
    (raceRun [true, false, true, false, true, false]).b.pc = 3 := by
  decide

end EventBusModel

namespace Util

/-- C10: for every 32-bit generator state, `uniform_dist` is total and
range-correct: a positive bound n yields a value strictly below n (by the
mask when n is a power of two, by the 64-bit multiply-shift otherwise),
and a non-positive bound yields 0 (the release-build path after the
disabled assertion). -/
theorem uniform_dist_range (seed : Nat) (n : Int) (hs : seed < 2 ^ 32) :
    (0 < n → ((uniform_dist seed n : Nat) : Int) < n) ∧
    (n ≤ 0 → uniform_dist seed n = 0) := by
  constructor
  · intro hn
    have hnle : ¬ n ≤ 0 := not_le.mpr hn
    have hm : (n.toNat : Int) = n := Int.toNat_of_nonneg hn.le
    have hmpos : 0 < n.toNat := by omega
    have hr32 : xorshift32 seed < 2 ^ 32 := xorshift32_lt seed hs
    have hnat : uniform_dist seed n < n.toNat := by
      unfold uniform_dist
      rw [if_neg hnle]
      by_cases hpow : n.toNat &&& (n.toNat - 1) = 0
      · rw [if_pos hpow]
        exact Nat.lt_of_le_of_lt Nat.and_le_right (by omega)
      · rw [if_neg hpow]
        rw [Nat.shiftRight_eq_div_pow]
        refine (Nat.div_lt_iff_lt_mul (by norm_num)).mpr ?_
        calc xorshift32 seed * n.toNat < 2 ^ 32 * n.toNat :=
              (Nat.mul_lt_mul_right hmpos).mpr hr32
          _ = n.toNat * 2 ^ 32 := Nat.mul_comm _ _
    calc ((uniform_dist seed n : Nat) : Int) < (n.toNat : Int) := by
          exact_mod_cast hnat
      _ = n := hm
  · intro hn
    unfold uniform_dist
    rw [if_pos hn]

/-- Witness for C10: from state 1 the draw below 3 (multiply-shift path)
is in range, and the bound -2 yields 0. -/
theorem uniform_dist_range_witness :
    ((uniform_dist 1 3 : Nat) : Int) < 3 ∧ uniform_dist 1 (-2) = 0 :=
  ⟨(uniform_dist_range 1 3 (by norm_num)).1 (by norm_num),
   (uniform_dist_range 1 (-2) (by norm_num)).2 (by norm_num)⟩

end Util
